import Mathlib

/-!
Verification of the timing/synchronization core of a parallel discrete-event
simulation engine: the `Clock` recurring activity (`clock.cc`) and the
skip-ahead thread synchronizer `ThreadSyncSimpleSkip`
(`sync/threadSyncSimpleSkip.cc`).

The C++ code is shallowly embedded: `SimTime_t` (`uint64_t`) arithmetic is
modelled over `Nat` with explicit reduction modulo `2 ^ 64` wherever the
machine operation can wrap; pointers to `Link` and handler objects are
modelled as numeric identities; the `std::map<std::string, Link*>` is an
association list; mutation becomes explicit state passing.
-/

/-- The modulus of `SimTime_t` (`uint64_t`) arithmetic. -/
def U64 : Nat := 2 ^ 64

/-- `uint64_t` subtraction `a - b` (wraps modulo `2 ^ 64`). -/
def sub64 (a b : Nat) : Nat := (a + (U64 - b % U64)) % U64

/-- An `Activity`/`Event` as buffered in a `ThreadSyncQueue`: its delivery
time, the identity of its delivery `Link` (what `getDeliveryLink` extracts),
and its payload size. -/
structure Activity where
  deliveryTime : Nat
  link : Nat
  size : Nat
deriving DecidableEq

/-- Association-list lookup, modelling `std::map::find`. -/
def lookupAssoc {α β : Type} [DecidableEq α] : List (α × β) → α → Option β
  | [], _ => none
  | (k, v) :: t, a => if k = a then some v else lookupAssoc t a

/-- Association-list erase of the (unique) binding of a key, modelling
`std::map::erase`. -/
def eraseAssoc {α β : Type} [DecidableEq α] : List (α × β) → α → List (α × β)
  | [], _ => []
  | (k, v) :: t, a => if k = a then t else (k, v) :: eraseAssoc t a

/-- The state of a `ThreadSyncSimpleSkip` object: the per-destination
`ThreadSyncQueue`s, the pending `link_map` of unmatched registrations, the
delivery metadata written by `setLinkDeliveryInfo` (link identity mapped to
the remote link identity it delivers to), and the timing fields. -/
structure ThreadSyncState where
  num_threads : Nat
  thread : Nat
  queues : List (List Activity)
  link_map : List (String × Nat)
  delivery : List (Nat × Nat)
  my_max_period : Nat
  nextSyncTime : Nat
deriving DecidableEq

/-- `ThreadSyncSimpleSkip::ThreadSyncSimpleSkip`: builds one empty
`ThreadSyncQueue` per thread, records `my_max_period` from
`sim->getInterThreadMinLatency()`, and sets `nextSyncTime = my_max_period`. -/
def ThreadSyncSimpleSkip.construct (num_threads thread interThreadMinLatency : Nat) :
    ThreadSyncState :=
  { num_threads := num_threads
    thread := thread
    queues := List.replicate num_threads []
    link_map := []
    delivery := []
    my_max_period := interThreadMinLatency
    nextSyncTime := interThreadMinLatency }

/-- `ThreadSyncSimpleSkip::after`: reads
`sim->getLocalMinimumNextActivityTime()` (passed here as the parameter
`localMin`, a single read), computes `nextminPlus = nextmin + my_max_period`
in `uint64_t`, and stores `nextmin > nextminPlus ? nextmin : nextminPlus`
into `nextSyncTime`. -/
def ThreadSyncSimpleSkip.after (st : ThreadSyncState) (localMin : Nat) : ThreadSyncState :=
  let nextmin := localMin
  let nextminPlus := (nextmin + st.my_max_period) % U64
  { st with nextSyncTime := if nextmin > nextminPlus then nextmin else nextminPlus }

/-- C10: immediately after construction, `nextSyncTime` equals the configured
inter-thread minimum latency bound `my_max_period`, and every per-destination
queue starts empty, so the first synchronization point is at simulated time
`maxPeriod` regardless of any Activity content. -/
theorem c10_ctor_nextSyncTime (n t lat : Nat) :
    (ThreadSyncSimpleSkip.construct n t lat).nextSyncTime = lat ∧
    (ThreadSyncSimpleSkip.construct n t lat).my_max_period = lat ∧
    ∀ q ∈ (ThreadSyncSimpleSkip.construct n t lat).queues, q = [] := by
  refine ⟨rfl, rfl, ?_⟩
  intro q hq
  exact (List.eq_of_mem_replicate hq)

/-- C1: at the end of the After phase, `nextSyncTime` equals
`max(localMinimumNextActivityTime, localMinimumNextActivityTime_at_epoch_start
+ maxPeriod)`.  The code reads `getLocalMinimumNextActivityTime()` exactly
once, inside `after`, so the epoch-start value `mStart` is that same read
(hypothesis `hstart`); `hov` rules out `uint64_t` wraparound of the sum. -/
theorem c1_after_nextSyncTime (st : ThreadSyncState) (m mStart : Nat)
    (hstart : mStart = m) (hov : m + st.my_max_period < U64) :
    (ThreadSyncSimpleSkip.after st m).nextSyncTime = max m (mStart + st.my_max_period) := by
  rw [hstart]
  unfold ThreadSyncSimpleSkip.after
  simp only [Nat.mod_eq_of_lt hov]
  have hle : m ≤ m + st.my_max_period := Nat.le_add_right _ _
  rw [if_neg (by omega), Nat.max_eq_right hle]

/-- Witness for C1 at a concrete state. -/
theorem c1_after_nextSyncTime_witness :
    (ThreadSyncSimpleSkip.after (ThreadSyncSimpleSkip.construct 2 0 10) 100).nextSyncTime =
      max 100 (100 + 10) :=
  c1_after_nextSyncTime (ThreadSyncSimpleSkip.construct 2 0 10) 100 100 rfl (by decide)

/-- A send performed during the Before phase: `getDeliveryLink(ev)->send(delay, ev)`. -/
structure SentMsg where
  link : Nat
  delay : Nat
  ev : Activity
deriving DecidableEq

/-- The inner loop of `ThreadSyncSimpleSkip::before` over one
`ThreadSyncQueue`: for each buffered event, `delay = ev->getDeliveryTime() -
current_cycle` (in `uint64_t`) and the event is sent on its delivery link. -/
def ThreadSyncSimpleSkip.drainQueue (current_cycle : Nat) (vec : List Activity) :
    List SentMsg :=
  vec.map (fun ev => { link := ev.link, delay := sub64 ev.deliveryTime current_cycle, ev := ev })

/-- `ThreadSyncSimpleSkip::before`: walks every per-destination queue, sends
each buffered event with the recomputed delay, then clears the queue.
Returns the new state and the list of sends in the order they are issued. -/
def ThreadSyncSimpleSkip.before (st : ThreadSyncState) (current_cycle : Nat) :
    ThreadSyncState × List SentMsg :=
  ({ st with queues := st.queues.map (fun _ => []) },
   (st.queues.map (ThreadSyncSimpleSkip.drainQueue current_cycle)).flatten)

/-- C2: when `before()` returns, every per-destination queue has length 0 and
every buffered Activity has been sent on its resolved Link with delay equal
to its original delivery time minus the current simulated cycle.  The
hypotheses keep the `uint64_t` subtraction from wrapping: the protocol only
buffers events whose delivery time is at or past the synchronization cycle. -/
theorem c2_before_drains (st : ThreadSyncState) (cycle : Nat)
    (hle : ∀ q ∈ st.queues, ∀ a ∈ q, cycle ≤ a.deliveryTime ∧ a.deliveryTime < U64)
    (hc : cycle < U64) :
    (∀ q ∈ (ThreadSyncSimpleSkip.before st cycle).1.queues, q = []) ∧
    (ThreadSyncSimpleSkip.before st cycle).2 =
      st.queues.flatten.map
        (fun ev => { link := ev.link, delay := ev.deliveryTime - cycle, ev := ev }) := by
  constructor
  · intro q hq
    rcases List.mem_map.mp hq with ⟨q0, _, rfl⟩
    rfl
  · show (st.queues.map (ThreadSyncSimpleSkip.drainQueue cycle)).flatten = _
    rw [List.map_flatten]
    congr 1
    apply List.map_congr_left
    intro q hq
    unfold ThreadSyncSimpleSkip.drainQueue
    apply List.map_congr_left
    intro ev hev
    rcases hle q hq ev hev with ⟨h1, h2⟩
    have hsub : sub64 ev.deliveryTime cycle = ev.deliveryTime - cycle := by
      unfold sub64 U64 at *
      rw [Nat.mod_eq_of_lt hc]
      have hsplit : ev.deliveryTime + (2 ^ 64 - cycle) = (ev.deliveryTime - cycle) + 2 ^ 64 := by
        omega
      rw [hsplit, Nat.add_mod_right, Nat.mod_eq_of_lt (by omega)]
    rw [hsub]

/-- Witness for C2: one queue holding two events at cycle 100. -/
theorem c2_before_drains_witness :
    (∀ q ∈ (ThreadSyncSimpleSkip.before
        { ThreadSyncSimpleSkip.construct 2 0 10 with
            queues := [[⟨103, 7, 4⟩], [⟨110, 8, 2⟩]] } 100).1.queues, q = []) ∧
    (ThreadSyncSimpleSkip.before
        { ThreadSyncSimpleSkip.construct 2 0 10 with
            queues := [[⟨103, 7, 4⟩], [⟨110, 8, 2⟩]] } 100).2 =
      [{ link := 7, delay := 3, ev := ⟨103, 7, 4⟩ }, { link := 8, delay := 10, ev := ⟨110, 8, 2⟩ }] := by
  have H := c2_before_drains
    { ThreadSyncSimpleSkip.construct 2 0 10 with queues := [[⟨103, 7, 4⟩], [⟨110, 8, 2⟩]] } 100
    (by decide) (by decide)
  exact ⟨H.1, by rw [H.2]; rfl⟩

/-- One step in the body of `ThreadSyncSimpleSkip::execute`: a wait on
`barrier[i]`, the Before phase, or the After phase. -/
inductive SyncStep where
  | barrierWait : Nat → SyncStep
  | beforePhase : SyncStep
  | afterPhase : SyncStep
deriving DecidableEq

/-- The statement order of `ThreadSyncSimpleSkip::execute`:
`barrier[0].wait(); before(); barrier[1].wait(); after(); barrier[2].wait();`. -/
def ThreadSyncSimpleSkip.executeTrace : List SyncStep :=
  [SyncStep.barrierWait 0, SyncStep.beforePhase, SyncStep.barrierWait 1,
   SyncStep.afterPhase, SyncStep.barrierWait 2]

/-- `guardedBy t g s = true` when, scanning `t` left to right, the guard `g`
occurs strictly before the first occurrence of the step `s` (so `s` can only
be entered after passing `g`). -/
def guardedBy : List SyncStep → SyncStep → SyncStep → Bool
  | [], _, _ => true
  | x :: t, g, s =>
    if x = s then false
    else if x = g then true
    else guardedBy t g s

/-- C3 counterexample: in `execute`, the Before phase is NOT gated by
Barrier #2 (`barrier[1]`) and the After phase is NOT gated by Barrier #3
(`barrier[2]`): `before()` runs right after `barrier[0].wait()` and
`after()` right after `barrier[1].wait()`.  This refutes the claim's
barrier numbering at the concrete trace of `execute`. -/
theorem c3_counterexample :
    ¬ (guardedBy ThreadSyncSimpleSkip.executeTrace (SyncStep.barrierWait 1)
          SyncStep.beforePhase = true ∧
       guardedBy ThreadSyncSimpleSkip.executeTrace (SyncStep.barrierWait 2)
          SyncStep.afterPhase = true) := by
  decide

/-- C3 amended: `execute` runs the three phases strictly in order, but the
Before phase is entered right after passing Barrier #1 (`barrier[0]`), the
After phase right after passing Barrier #2 (`barrier[1]`), and Barrier #3
(`barrier[2]`) is the final rendezvous closing the epoch. -/
theorem c3_execute_phase_order :
    guardedBy ThreadSyncSimpleSkip.executeTrace (SyncStep.barrierWait 0)
        SyncStep.beforePhase = true ∧
    guardedBy ThreadSyncSimpleSkip.executeTrace SyncStep.beforePhase
        (SyncStep.barrierWait 1) = true ∧
    guardedBy ThreadSyncSimpleSkip.executeTrace (SyncStep.barrierWait 1)
        SyncStep.afterPhase = true ∧
    guardedBy ThreadSyncSimpleSkip.executeTrace SyncStep.afterPhase
        (SyncStep.barrierWait 2) = true ∧
    ThreadSyncSimpleSkip.executeTrace.head? = some (SyncStep.barrierWait 0) ∧
    ThreadSyncSimpleSkip.executeTrace.getLast? = some (SyncStep.barrierWait 2) ∧
    SyncStep.beforePhase ∈ ThreadSyncSimpleSkip.executeTrace ∧
    SyncStep.afterPhase ∈ ThreadSyncSimpleSkip.executeTrace := by
  decide

/-- `ThreadSyncSimpleSkip::registerLink`: if `name` is not yet in `link_map`,
store `(name, link)`; otherwise treat the stored entry as the remote
endpoint, call `setLinkDeliveryInfo(link, remote_link)` (wiring only the
arriving link's delivery info), and erase the map entry. -/
def ThreadSyncSimpleSkip.registerLink (st : ThreadSyncState) (name : String) (link : Nat) :
    ThreadSyncState :=
  match lookupAssoc st.link_map name with
  | none => { st with link_map := (name, link) :: st.link_map }
  | some remote_link =>
    { st with
        delivery := (link, remote_link) :: st.delivery
        link_map := eraseAssoc st.link_map name }

/-- `ThreadSyncSimpleSkip::registerRemoteLink`: if `name` is not yet in
`link_map`, store `(name, link)`; otherwise treat the stored entry as the
local endpoint, call `setLinkDeliveryInfo(local_link, link)` (wiring only the
stored link's delivery info), and erase the map entry.  Returns `queues[tid]`
(modelled by the index `tid`). -/
def ThreadSyncSimpleSkip.registerRemoteLink (st : ThreadSyncState) (tid : Nat)
    (name : String) (link : Nat) : ThreadSyncState × Nat :=
  match lookupAssoc st.link_map name with
  | none => ({ st with link_map := (name, link) :: st.link_map }, tid)
  | some local_link =>
    ({ st with
        delivery := (local_link, link) :: st.delivery
        link_map := eraseAssoc st.link_map name }, tid)

/-- The state after `registerLink("A", 0)` followed by `registerLink("A", 1)`
on a freshly constructed synchronizer. -/
def c4State : ThreadSyncState :=
  ThreadSyncSimpleSkip.registerLink
    (ThreadSyncSimpleSkip.registerLink (ThreadSyncSimpleSkip.construct 2 0 10) "A" 0) "A" 1

/-- C4 counterexample: after two `registerLink` calls under the same name,
only the second-arriving link (1) has its delivery info wired (to 0); the
first link (0) is left unwired, so the two Links do NOT end up pointing at
each other as the claim states. -/
theorem c4_counterexample :
    ¬ (lookupAssoc c4State.delivery 0 = some 1 ∧
       lookupAssoc c4State.delivery 1 = some 0) := by
  decide

/-- C4 amended: two-phase link registration is commutative in arrival order,
but each matching pair wires exactly ONE direction of delivery metadata.
The first registration under a name stores `(name, link)`.  For a local
`registerLink(name, A)` paired with a `registerRemoteLink(tid, name, B)`,
the final state is identical in either arrival order: `A`'s delivery info
points at `B`, the map entry is gone, and `B`'s delivery info is NOT touched
by this pair (the reverse direction is wired by the other thread's
synchronizer).  A `registerLink`-`registerLink` pair likewise wires only the
second-arriving link to the first. -/
theorem c4_register_commutative (st : ThreadSyncState) (name : String) (A B tid : Nat)
    (h : lookupAssoc st.link_map name = none) :
    lookupAssoc (ThreadSyncSimpleSkip.registerLink st name A).link_map name = some A ∧
    (ThreadSyncSimpleSkip.registerRemoteLink
        (ThreadSyncSimpleSkip.registerLink st name A) tid name B).1 =
      ThreadSyncSimpleSkip.registerLink
        (ThreadSyncSimpleSkip.registerRemoteLink st tid name B).1 name A ∧
    (ThreadSyncSimpleSkip.registerRemoteLink
        (ThreadSyncSimpleSkip.registerLink st name A) tid name B).1.delivery =
      (A, B) :: st.delivery ∧
    lookupAssoc (ThreadSyncSimpleSkip.registerRemoteLink
        (ThreadSyncSimpleSkip.registerLink st name A) tid name B).1.link_map name = none ∧
    (ThreadSyncSimpleSkip.registerLink
        (ThreadSyncSimpleSkip.registerLink st name A) name B).delivery =
      (B, A) :: st.delivery := by
  unfold ThreadSyncSimpleSkip.registerLink ThreadSyncSimpleSkip.registerRemoteLink
  rw [h]
  simp [lookupAssoc, eraseAssoc, h]

/-- Witness for C4 amended on a fresh synchronizer. -/
theorem c4_register_commutative_witness :
    lookupAssoc (ThreadSyncSimpleSkip.registerLink
        (ThreadSyncSimpleSkip.construct 2 0 10) "A" 5).link_map "A" = some 5 ∧
    (ThreadSyncSimpleSkip.registerRemoteLink
        (ThreadSyncSimpleSkip.registerLink
          (ThreadSyncSimpleSkip.construct 2 0 10) "A" 5) 1 "A" 9).1 =
      ThreadSyncSimpleSkip.registerLink
        (ThreadSyncSimpleSkip.registerRemoteLink
          (ThreadSyncSimpleSkip.construct 2 0 10) 1 "A" 9).1 "A" 5 ∧
    (ThreadSyncSimpleSkip.registerRemoteLink
        (ThreadSyncSimpleSkip.registerLink
          (ThreadSyncSimpleSkip.construct 2 0 10) "A" 5) 1 "A" 9).1.delivery = [(5, 9)] := by
  have H := c4_register_commutative (ThreadSyncSimpleSkip.construct 2 0 10) "A" 5 9 1 rfl
  exact ⟨H.1, H.2.1, H.2.2.1⟩

/-- `ThreadSyncSimpleSkip::getDataSize`: `size_t count = 0; return count;`. -/
def ThreadSyncSimpleSkip.getDataSize (_st : ThreadSyncState) : Nat :=
  let count := 0
  count

/-- The quantity the spec says `getDataSize` reports, stated from the spec's
words for comparison: the total size of the Activities currently buffered in
the partition's Cross-Partition Link Queues. -/
def specOutstandingPayloadVolume (st : ThreadSyncState) : Nat :=
  (st.queues.map (fun q => (q.map Activity.size).sum)).sum

/-- A synchronizer state with one buffered Activity of payload size 5. -/
def c8State : ThreadSyncState :=
  { ThreadSyncSimpleSkip.construct 1 0 10 with queues := [[⟨103, 0, 5⟩]] }

/-- C8 counterexample: with an Activity of size 5 buffered, `getDataSize`
still returns 0, not the outstanding payload volume. -/
theorem c8_counterexample :
    ThreadSyncSimpleSkip.getDataSize c8State = 0 ∧
    specOutstandingPayloadVolume c8State = 5 ∧
    ThreadSyncSimpleSkip.getDataSize c8State ≠ specOutstandingPayloadVolume c8State := by
  decide

/-- C8 amended: `getDataSize()` is a stub: it always returns 0, whatever is
buffered in the Cross-Partition Link Queues, so it does not report the
outstanding payload volume. -/
theorem c8_getDataSize_zero (st : ThreadSyncState) :
    ThreadSyncSimpleSkip.getDataSize st = 0 := rfl

/-- A registered periodic handler (`Clock::HandlerBase*`): its pointer
identity and its callback, which receives the current cycle number and
returns the "remove me" signal. -/
structure ClockHandler where
  id : Nat
  fn : Nat → Bool

/-- The state of a `Clock`: `currentCycle`, the `staticHandlerMap` handler
collection in registration order, and the `scheduled` flag. -/
structure Clock where
  currentCycle : Nat
  handlers : List ClockHandler
  scheduled : Bool

/-- The search-and-erase loop of `Clock::unregisterHandler`: erase the first
element whose pointer equals `handler`, then stop. -/
def Clock.unregisterLoop (handler : Nat) : List ClockHandler → List ClockHandler
  | [] => []
  | h :: t => if h.id = handler then t else h :: Clock.unregisterLoop handler t

/-- `Clock::unregisterHandler(handler, empty)`: runs the erase loop, sets the
output parameter `empty` to whether the collection is now empty, and returns
`0` (false).  Result: (new clock, `empty`, return value). -/
def Clock.unregisterHandler (c : Clock) (handler : Nat) : Clock × Bool × Bool :=
  let hs := Clock.unregisterLoop handler c.handlers
  ({ c with handlers := hs }, hs.isEmpty, false)

/-- The erase loop leaves a collection without the target untouched. -/
theorem Clock.unregisterLoop_not_mem (x : Nat) (hs : List ClockHandler)
    (h : ∀ p ∈ hs, p.id ≠ x) : Clock.unregisterLoop x hs = hs := by
  induction hs with
  | nil => rfl
  | cons p t ih =>
    unfold Clock.unregisterLoop
    rw [if_neg (h p (List.mem_cons_self p t))]
    rw [ih (fun q hq => h q (List.mem_cons_of_mem p hq))]

/-- The erase loop removes exactly the first occurrence of the target. -/
theorem Clock.unregisterLoop_first (x : Nat) (pre post : List ClockHandler)
    (g : ClockHandler) (hpre : ∀ p ∈ pre, p.id ≠ x) (hg : g.id = x) :
    Clock.unregisterLoop x (pre ++ g :: post) = pre ++ post := by
  induction pre with
  | nil =>
    show (if g.id = x then post else g :: Clock.unregisterLoop x post) = post
    rw [if_pos hg]
  | cons p t ih =>
    show (if p.id = x then t ++ g :: post else p :: Clock.unregisterLoop x (t ++ g :: post)) =
      p :: (t ++ post)
    rw [if_neg (hpre p (List.mem_cons_self p t))]
    rw [ih (fun q hq => hpre q (List.mem_cons_of_mem p hq))]

/-- C9: `unregisterHandler(h, empty)` removes only the first stored reference
equal to `h`; when `h` is absent the collection is unchanged; `empty` is set
to whether the collection is empty afterwards; the return value is `0`. -/
theorem c9_unregisterHandler (c : Clock) (x : Nat) (pre post : List ClockHandler)
    (g : ClockHandler) :
    (c.handlers = pre ++ g :: post → (∀ p ∈ pre, p.id ≠ x) → g.id = x →
      (Clock.unregisterHandler c x).1.handlers = pre ++ post) ∧
    ((∀ p ∈ c.handlers, p.id ≠ x) →
      (Clock.unregisterHandler c x).1.handlers = c.handlers) ∧
    (Clock.unregisterHandler c x).2.1 = (Clock.unregisterHandler c x).1.handlers.isEmpty ∧
    (Clock.unregisterHandler c x).2.2 = false := by
  refine ⟨?_, ?_, rfl, rfl⟩
  · intro hsplit hpre hg
    show Clock.unregisterLoop x c.handlers = pre ++ post
    rw [hsplit]
    exact Clock.unregisterLoop_first x pre post g hpre hg
  · intro habs
    show Clock.unregisterLoop x c.handlers = c.handlers
    exact Clock.unregisterLoop_not_mem x c.handlers habs

/-- Handlers of the C9 witness clock: two share pointer identity 1. -/
def c9h0 : ClockHandler := ⟨0, fun _ => false⟩

/-- Second handler of the C9 witness clock (pointer identity 1). -/
def c9h1 : ClockHandler := ⟨1, fun _ => false⟩

/-- Third handler of the C9 witness clock (duplicate registration of 1). -/
def c9h1b : ClockHandler := ⟨1, fun _ => true⟩

/-- The C9 witness clock. -/
def c9Clock : Clock := ⟨4, [c9h0, c9h1, c9h1b], true⟩

/-- Witness for C9: unregistering 1 removes only the first of the two
occurrences; unregistering an absent 99 changes nothing; the `empty` flag
and return value are as claimed. -/
theorem c9_unregisterHandler_witness :
    (Clock.unregisterHandler c9Clock 1).1.handlers = [c9h0] ++ [c9h1b] ∧
    (Clock.unregisterHandler c9Clock 99).1.handlers = c9Clock.handlers ∧
    (Clock.unregisterHandler c9Clock 1).2.1 =
      (Clock.unregisterHandler c9Clock 1).1.handlers.isEmpty ∧
    (Clock.unregisterHandler c9Clock 1).2.2 = false := by
  have H := c9_unregisterHandler c9Clock 1 [c9h0] [c9h1b] c9h1
  have H2 := c9_unregisterHandler c9Clock 99 [] [] c9h0
  exact ⟨H.1 rfl (by decide) rfl, H2.2.1 (by decide), H.2.2.1, H.2.2.2⟩

/-- The handler-invocation pass of `Clock::execute`: each handler is invoked
with the current cycle (the invocations are recorded as `(id, cycle)` pairs
in order); a handler returning `true` ("remove me") is erased at its own
position, the others are kept.  Returns (invocations, remaining handlers). -/
def Clock.runPass (cycle : Nat) : List ClockHandler → List (Nat × Nat) × List ClockHandler
  | [] => ([], [])
  | h :: t =>
    let done := h.fn cycle
    let r := Clock.runPass cycle t
    ((h.id, cycle) :: r.1, if done then r.2 else h :: r.2)

/-- `Clock::execute`: with an empty handler collection, mark unscheduled and
return without rescheduling; otherwise increment `currentCycle`, run the
invocation pass, then unconditionally reinsert at
`sim->getCurrentSimCycle() + period->getFactor()`.  Returns the new clock,
the invocations performed, and the Activity-Queue insertion (if any). -/
def Clock.execute (c : Clock) (now factor : Nat) : Clock × List (Nat × Nat) × Option Nat :=
  if c.handlers.isEmpty then ({ c with scheduled := false }, [], none)
  else
    let cycle := c.currentCycle + 1
    let r := Clock.runPass cycle c.handlers
    ({ c with currentCycle := cycle, handlers := r.2 }, r.1, some ((now + factor) % U64))

/-- A sequence of `execute` firings at given (time, factor) pairs,
accumulating every handler invocation performed along the way. -/
def Clock.runSteps (c : Clock) : List (Nat × Nat) → Clock × List (Nat × Nat)
  | [] => (c, [])
  | (now, factor) :: rest =>
    let e := Clock.execute c now factor
    let r := Clock.runSteps e.1 rest
    (r.1, e.2.1 ++ r.2)

/-- The pass invokes exactly the handlers present, in order, with the cycle. -/
theorem Clock.runPass_fst (cycle : Nat) (hs : List ClockHandler) :
    (Clock.runPass cycle hs).1 = hs.map (fun h => (h.id, cycle)) := by
  induction hs with
  | nil => rfl
  | cons h t ih =>
    show ((h.id, cycle) :: (Clock.runPass cycle t).1, _).1 = _
    rw [List.map_cons, ih]

/-- Handlers surviving the pass were present before the pass. -/
theorem Clock.runPass_snd_subset (cycle : Nat) (hs : List ClockHandler) :
    ∀ g ∈ (Clock.runPass cycle hs).2, g ∈ hs := by
  induction hs with
  | nil => intro g hg; cases hg
  | cons h t ih =>
    intro g hg
    have hg2 : g ∈ if h.fn cycle then (Clock.runPass cycle t).2
        else h :: (Clock.runPass cycle t).2 := hg
    by_cases hd : h.fn cycle = true
    · rw [if_pos hd] at hg2
      exact List.mem_cons_of_mem h (ih g hg2)
    · rw [if_neg hd] at hg2
      rcases List.mem_cons.mp hg2 with rfl | hgt
      · exact List.mem_cons_self g t
      · exact List.mem_cons_of_mem h (ih g hgt)

/-- A handler whose invocation returned `true` is gone from the surviving
collection (pointer identities assumed distinct per registration order). -/
theorem Clock.runPass_removed (cycle : Nat) (h : ClockHandler) :
    ∀ hs : List ClockHandler, h ∈ hs → (hs.map ClockHandler.id).Nodup →
      h.fn cycle = true → ∀ g ∈ (Clock.runPass cycle hs).2, g.id ≠ h.id := by
  intro hs
  induction hs with
  | nil => intro hmem; cases hmem
  | cons x t ih =>
    intro hmem hnodup hdone g hg
    rw [List.map_cons, List.nodup_cons] at hnodup
    obtain ⟨hxid, hnd⟩ := hnodup
    have hg2 : g ∈ if x.fn cycle then (Clock.runPass cycle t).2
        else x :: (Clock.runPass cycle t).2 := hg
    rcases List.mem_cons.mp hmem with rfl | hmemt
    · rw [if_pos hdone] at hg2
      intro he
      exact hxid (he ▸ List.mem_map_of_mem ClockHandler.id
        (Clock.runPass_snd_subset cycle t g hg2))
    · by_cases hd : x.fn cycle = true
      · rw [if_pos hd] at hg2
        exact ih hmemt hnd hdone g hg2
      · rw [if_neg hd] at hg2
        rcases List.mem_cons.mp hg2 with rfl | hgt
        · intro he
          exact hxid (he ▸ List.mem_map_of_mem ClockHandler.id hmemt)
        · exact ih hmemt hnd hdone g hgt

/-- If no current handler has pointer identity `x`, then no invocation in any
sequence of later firings has identity `x`, and `x` never reappears in the
collection. -/
theorem Clock.runSteps_no_id (x : Nat) :
    ∀ (steps : List (Nat × Nat)) (c : Clock), (∀ g ∈ c.handlers, g.id ≠ x) →
      (∀ p ∈ (Clock.runSteps c steps).2, p.1 ≠ x) ∧
      (∀ g ∈ (Clock.runSteps c steps).1.handlers, g.id ≠ x) := by
  intro steps
  induction steps with
  | nil =>
    intro c hc
    exact ⟨fun p hp => absurd hp (List.not_mem_nil p), hc⟩
  | cons s rest ih =>
    intro c hc
    obtain ⟨now, factor⟩ := s
    have hexec : ∀ g ∈ (Clock.execute c now factor).1.handlers, g.id ≠ x := by
      intro g hg
      unfold Clock.execute at hg
      split at hg
      · exact hc g hg
      · exact hc g (Clock.runPass_snd_subset _ _ g hg)
    have hinv : ∀ p ∈ (Clock.execute c now factor).2.1, p.1 ≠ x := by
      intro p hp
      unfold Clock.execute at hp
      split at hp
      · cases hp
      · rw [Clock.runPass_fst] at hp
        rcases List.mem_map.mp hp with ⟨g, hg, rfl⟩
        exact hc g hg
    have hr := ih (Clock.execute c now factor).1 hexec
    constructor
    · intro p hp
      have hp2 : p ∈ (Clock.execute c now factor).2.1 ++
          (Clock.runSteps (Clock.execute c now factor).1 rest).2 := hp
      rcases List.mem_append.mp hp2 with hp3 | hp3
      · exact hinv p hp3
      · exact hr.1 p hp3
    · intro g hg
      exact hr.2 g hg

/-- C5 amended: a handler returning "remove me" is invoked in that pass,
unregistered immediately, and never invoked again in any later firing.
However, when it was the Clock's only handler, the Clock does NOT drop out
of the Activity Queue at once: `execute` still reinserts the Clock at
`now + period`; only the next firing, finding the collection empty, marks it
unscheduled and stops rescheduling. -/
theorem c5_remove_me (c : Clock) (h : ClockHandler) (now factor : Nat)
    (hmem : h ∈ c.handlers)
    (hnodup : (c.handlers.map ClockHandler.id).Nodup)
    (hdone : h.fn (c.currentCycle + 1) = true) :
    (h.id, c.currentCycle + 1) ∈ (Clock.execute c now factor).2.1 ∧
    (∀ g ∈ (Clock.execute c now factor).1.handlers, g.id ≠ h.id) ∧
    (∀ steps : List (Nat × Nat),
      ∀ p ∈ (Clock.runSteps (Clock.execute c now factor).1 steps).2, p.1 ≠ h.id) ∧
    (c.handlers = [h] →
      (Clock.execute c now factor).2.2 = some ((now + factor) % U64) ∧
      ∀ now2 factor2 : Nat,
        (Clock.execute (Clock.execute c now factor).1 now2 factor2).2.1 = [] ∧
        (Clock.execute (Clock.execute c now factor).1 now2 factor2).2.2 = none ∧
        (Clock.execute (Clock.execute c now factor).1 now2 factor2).1.scheduled = false) := by
  have hne : c.handlers.isEmpty = false := by
    cases hs : c.handlers with
    | nil => rw [hs] at hmem; cases hmem
    | cons a t => rfl
  have hexec : Clock.execute c now factor =
      Prod.mk
        { c with
            currentCycle := c.currentCycle + 1
            handlers := (Clock.runPass (c.currentCycle + 1) c.handlers).2 }
        (Prod.mk (Clock.runPass (c.currentCycle + 1) c.handlers).1
          (some ((now + factor) % U64))) := by
    unfold Clock.execute
    rw [if_neg (by rw [hne]; exact Bool.false_ne_true)]
  have hrem : ∀ g ∈ (Clock.execute c now factor).1.handlers, g.id ≠ h.id := by
    rw [hexec]
    exact Clock.runPass_removed (c.currentCycle + 1) h c.handlers hmem hnodup hdone
  refine ⟨?_, hrem, ?_, ?_⟩
  · rw [hexec]
    show (h.id, c.currentCycle + 1) ∈ (Clock.runPass (c.currentCycle + 1) c.handlers).1
    rw [Clock.runPass_fst]
    exact List.mem_map_of_mem _ hmem
  · intro steps
    exact (Clock.runSteps_no_id h.id steps (Clock.execute c now factor).1 hrem).1
  · intro honly
    have hpass : Clock.runPass (c.currentCycle + 1) c.handlers =
        ([(h.id, c.currentCycle + 1)], []) := by
      rw [honly]
      show ((h.id, c.currentCycle + 1) :: ([], []).1,
        if h.fn (c.currentCycle + 1) then ([], []).2 else h :: ([], []).2) = _
      rw [if_pos hdone]
    rw [hexec, hpass]
    exact ⟨rfl, fun now2 factor2 => ⟨rfl, rfl, rfl⟩⟩

/-- The C5 handler: asks to be removed on its first invocation. -/
def c5Handler : ClockHandler := ⟨0, fun _ => true⟩

/-- The C5 clock: freshly scheduled, one handler. -/
def c5Clock : Clock := ⟨0, [c5Handler], true⟩

/-- C5 counterexample: the sole handler removes itself during the firing at
time 5, yet `execute` still inserts the Clock into the Activity Queue for
time 10 — the Clock is NOT absent from the queue after that invocation. -/
theorem c5_counterexample :
    (Clock.execute c5Clock 5 5).2.2 = some 10 ∧ (Clock.execute c5Clock 5 5).2.2 ≠ none := by
  exact ⟨rfl, by decide⟩

/-- Witness for C5 amended at the concrete one-handler clock. -/
theorem c5_remove_me_witness :
    ((0, 1) ∈ (Clock.execute c5Clock 5 5).2.1) ∧
    (∀ g ∈ (Clock.execute c5Clock 5 5).1.handlers, g.id ≠ 0) ∧
    (Clock.execute c5Clock 5 5).2.2 = some ((5 + 5) % U64) ∧
    (Clock.execute (Clock.execute c5Clock 5 5).1 10 5).2.2 = none ∧
    (Clock.execute (Clock.execute c5Clock 5 5).1 10 5).1.scheduled = false := by
  have H := c5_remove_me c5Clock c5Handler 5 5 (List.mem_singleton.mpr rfl)
    (by decide) rfl
  exact ⟨H.1, H.2.1, (H.2.2.2 rfl).1, ((H.2.2.2 rfl).2 10 5).2.1, ((H.2.2.2 rfl).2 10 5).2.2⟩

/-- The delivery-time computation of `Clock::schedule`:
`currentCycle = now / factor; next = currentCycle * factor + factor;` then,
when `sim->getCurrentPriority() < getPriority()` and `now != 0` and `now`
is a period boundary, `next = now`. -/
def Clock.scheduleNext (now factor curPrio clkPrio : Nat) : Nat :=
  let currentCycle := now / factor
  let next := (currentCycle * factor + factor) % U64
  if curPrio < clkPrio ∧ now ≠ 0 then
    (if now % factor = 0 then now else next)
  else next

/-- `Clock::schedule`: sets `currentCycle = now / factor`, inserts the clock
into the Activity Queue at the computed `next` time (returned), and sets
`scheduled = true`. -/
def Clock.schedule (c : Clock) (now factor curPrio clkPrio : Nat) : Clock × Nat :=
  ({ c with currentCycle := now / factor, scheduled := true },
   Clock.scheduleNext now factor curPrio clkPrio)

/-- `Clock::registerHandler`: `push_back` the handler; if not scheduled,
call `schedule()`.  Returns the new clock and the Activity-Queue insertion
time, if an insertion happened. -/
def Clock.registerHandler (c : Clock) (h : ClockHandler) (now factor curPrio clkPrio : Nat) :
    Clock × Option Nat :=
  let c1 := { c with handlers := c.handlers ++ [h] }
  if c1.scheduled then (c1, none)
  else
    let s := Clock.schedule c1 now factor curPrio clkPrio
    (s.1, some s.2)

/-- The insertion times permitted by claim C6, stated from the claim's words:
the next multiple of the period at or after `now` (time zero deferring to the
next whole cycle), or — when the other Activity's priority value is strictly
greater than the Clock's, `now` is a period boundary, and `now` is not
absolute zero — possibly `now` itself. -/
def c6ClaimAllows (now factor curPrio clkPrio v : Nat) : Prop :=
  v = (if now = 0 then factor else factor * ((now + factor - 1) / factor)) ∨
  (clkPrio < curPrio ∧ now % factor = 0 ∧ now ≠ 0 ∧ v = now)

/-- C6 counterexample: at `now = 10`, period 5, current priority 7, clock
priority 5, the code schedules the Clock at 15 (a full period later), while
the claim only permits 10 (the next multiple at-or-after `now`, with its
exception also naming 10).  So the claim's "at or after" default and its
priority direction are both wrong on the code. -/
theorem c6_counterexample :
    Clock.scheduleNext 10 5 7 5 = 15 ∧ ¬ c6ClaimAllows 10 5 7 5 15 := by
  constructor
  · decide
  · unfold c6ClaimAllows
    decide

/-- C6 amended: when a Clock is scheduled, `scheduled` is set, and the
insertion time is the next multiple of the period STRICTLY after `now`
(so a registration at a nonzero period boundary defers a full period, and
time zero defers to the first whole cycle); the only exception: when the
currently-executing Activity's priority value is strictly LESS than the
Clock's and `now` is a nonzero period boundary, the Clock is inserted at
`now` itself. -/
theorem c6_schedule_boundary (c : Clock) (now factor curPrio clkPrio : Nat)
    (hf : 0 < factor) (hov : now + factor < U64) :
    (Clock.schedule c now factor curPrio clkPrio).1.scheduled = true ∧
    ((curPrio < clkPrio ∧ now ≠ 0 ∧ now % factor = 0) →
      (Clock.schedule c now factor curPrio clkPrio).2 = now) ∧
    (¬(curPrio < clkPrio ∧ now ≠ 0 ∧ now % factor = 0) →
      (Clock.schedule c now factor curPrio clkPrio).2 % factor = 0 ∧
      now < (Clock.schedule c now factor curPrio clkPrio).2 ∧
      (Clock.schedule c now factor curPrio clkPrio).2 ≤ now + factor) := by
  have hub : now / factor * factor + factor ≤ now + factor :=
    Nat.add_le_add_right (Nat.div_mul_le_self now factor) factor
  have hnext : (now / factor * factor + factor) % U64 = now / factor * factor + factor :=
    Nat.mod_eq_of_lt (lt_of_le_of_lt hub hov)
  have hmult : (now / factor * factor + factor) % factor = 0 := by
    have he : now / factor * factor + factor = (now / factor + 1) * factor := by ring
    rw [he, Nat.mul_mod_left]
  have hlt : now < now / factor * factor + factor := by
    conv_lhs => rw [← Nat.div_add_mod now factor]
    rw [Nat.mul_comm factor (now / factor)]
    exact Nat.add_lt_add_left (Nat.mod_lt now hf) _
  have hshow : (Clock.schedule c now factor curPrio clkPrio).2 =
      (if curPrio < clkPrio ∧ now ≠ 0 then
        (if now % factor = 0 then now else (now / factor * factor + factor) % U64)
      else (now / factor * factor + factor) % U64) := rfl
  refine ⟨rfl, ?_, ?_⟩
  · intro hc
    rw [hshow, if_pos ⟨hc.1, hc.2.1⟩, if_pos hc.2.2]
  · intro hnc
    have hval : (Clock.schedule c now factor curPrio clkPrio).2 =
        now / factor * factor + factor := by
      rw [hshow]
      by_cases h1 : curPrio < clkPrio ∧ now ≠ 0
      · rw [if_pos h1, if_neg (fun hmod => hnc ⟨h1.1, h1.2, hmod⟩), hnext]
      · rw [if_neg h1, hnext]
    rw [hval]
    exact ⟨hmult, hlt, hub⟩

/-- Witness for C6 amended: registration at the nonzero boundary 10 without
the priority exception defers to 15; with the exception it fires at 10. -/
theorem c6_schedule_boundary_witness :
    (Clock.schedule ⟨0, [], false⟩ 10 5 7 5).1.scheduled = true ∧
    ((Clock.schedule ⟨0, [], false⟩ 10 5 7 5).2 % 5 = 0 ∧
      10 < (Clock.schedule ⟨0, [], false⟩ 10 5 7 5).2 ∧
      (Clock.schedule ⟨0, [], false⟩ 10 5 7 5).2 ≤ 10 + 5) ∧
    (Clock.schedule ⟨0, [], false⟩ 10 5 3 5).2 = 10 := by
  have H1 := c6_schedule_boundary ⟨0, [], false⟩ 10 5 7 5 (by decide) (by decide)
  have H2 := c6_schedule_boundary ⟨0, [], false⟩ 10 5 3 5 (by decide) (by decide)
  exact ⟨H1.1, H1.2.2 (by decide), H2.2.1 (by decide)⟩

/-- The run of a Clock created by `registerHandler` at absolute time zero:
state `n` is the pair (clock state, pending Activity-Queue delivery time)
after `n` firings; each firing runs `execute` at the pending time. -/
def Clock.stateAtFiring (h : ClockHandler) (factor curPrio clkPrio : Nat) : Nat → Clock × Nat
  | 0 =>
    let r := Clock.registerHandler ⟨0, [], false⟩ h 0 factor curPrio clkPrio
    (r.1, (r.2).getD 0)
  | n + 1 =>
    let s := Clock.stateAtFiring h factor curPrio clkPrio n
    let e := Clock.execute s.1 s.2 factor
    (e.1, (e.2.2).getD 0)

/-- Closed form of the run of a Clock with one persistent handler registered
at time zero: after `n` firings the cycle counter is `n`, the handler is
still registered, and the next delivery is at `(n + 1) * factor`. -/
theorem Clock.stateAtFiring_eq (h : ClockHandler) (factor curPrio clkPrio : Nat)
    (hpersist : ∀ k, h.fn k = false) :
    ∀ n : Nat, (n + 1) * factor < U64 →
      Clock.stateAtFiring h factor curPrio clkPrio n =
        (⟨n, [h], true⟩, (n + 1) * factor) := by
  intro n
  induction n with
  | zero =>
    intro hov
    have hf2 : factor < U64 := by rw [Nat.one_mul] at hov; exact hov
    show (Prod.mk (Clock.registerHandler ⟨0, [], false⟩ h 0 factor curPrio clkPrio).1
      (((Clock.registerHandler ⟨0, [], false⟩ h 0 factor curPrio clkPrio).2).getD 0)) = _
    unfold Clock.registerHandler Clock.schedule Clock.scheduleNext
    simp [Nat.mod_eq_of_lt hf2]
  | succ n ih =>
    intro hov
    have hstep : (n + 1) * factor ≤ (n + 1 + 1) * factor :=
      Nat.mul_le_mul_right factor (by omega)
    have hov1 : (n + 1) * factor < U64 := lt_of_le_of_lt hstep hov
    have hmod : ((n + 1) * factor + factor) % U64 = (n + 1 + 1) * factor := by
      have he : (n + 1) * factor + factor = (n + 1 + 1) * factor := by ring
      rw [he]
      exact Nat.mod_eq_of_lt hov
    show (Prod.mk
      (Clock.execute (Clock.stateAtFiring h factor curPrio clkPrio n).1
        (Clock.stateAtFiring h factor curPrio clkPrio n).2 factor).1
      (((Clock.execute (Clock.stateAtFiring h factor curPrio clkPrio n).1
        (Clock.stateAtFiring h factor curPrio clkPrio n).2 factor).2.2).getD 0)) = _
    rw [ih hov1]
    unfold Clock.execute
    simp [Clock.runPass, hpersist, hmod]

/-- C7: for a Clock with period `factor` registered at time zero with one
persistent handler, firing `n + 1` occurs at simulated time
`(n + 1) * factor` and invokes the handler with cycle number `n + 1` — the
successive firings at `P, 2P, 3P, …` receive cycle numbers `1, 2, 3, …`,
strictly increasing with no skips and no repeats. -/
theorem c7_cycle_numbers (h : ClockHandler) (factor curPrio clkPrio n : Nat)
    (_hf : 0 < factor) (hpersist : ∀ k, h.fn k = false) (hov : (n + 1) * factor < U64) :
    (Clock.stateAtFiring h factor curPrio clkPrio n).2 = (n + 1) * factor ∧
    (Clock.execute (Clock.stateAtFiring h factor curPrio clkPrio n).1
        ((n + 1) * factor) factor).2.1 = [(h.id, n + 1)] := by
  have H := Clock.stateAtFiring_eq h factor curPrio clkPrio hpersist n hov
  rw [H]
  refine ⟨rfl, ?_⟩
  unfold Clock.execute
  simp [Clock.runPass]

/-- Witness for C7 at period 5, third firing. -/
theorem c7_cycle_numbers_witness :
    (Clock.stateAtFiring ⟨3, fun _ => false⟩ 5 1 2 2).2 = 3 * 5 ∧
    (Clock.execute (Clock.stateAtFiring ⟨3, fun _ => false⟩ 5 1 2 2).1 (3 * 5) 5).2.1 =
      [(3, 3)] := by
  have H := c7_cycle_numbers ⟨3, fun _ => false⟩ 5 1 2 2 (by decide)
    (fun k => rfl) (by decide)
  exact H
